import Mathlib

/-!
Verification development for the daily-reminder application
(src/daily_reminder-20250926.py, src/daily_reminder_qt61017.py).

The Python code is shallowly embedded: JSON dictionaries become
association lists (insertion-ordered, like Python dicts), calendar dates
become a Date structure with the proleptic-Gregorian ordinal that Python
date.toordinal uses, the ambient clock (datetime.date.today) becomes an
explicit today parameter, and the filesystem effects of load_data and
save_data become explicit Disk-state passing, with write failure
(PermissionError and similar) modelled by a boolean oracle argument.
-/

/-- Calendar date, mirroring Python datetime.date components. -/
structure Date where
  year : Nat
  month : Nat
  day : Nat
deriving DecidableEq, Repr

/-- Gregorian leap-year test, as in Python calendar.isleap. -/
def isLeapYear (y : Nat) : Bool :=
  decide ((y % 4 = 0 ∧ y % 100 ≠ 0) ∨ y % 400 = 0)

/-- Number of days in a month of a given year. -/
def daysInMonth (y m : Nat) : Nat :=
  if m = 2 then (if isLeapYear y then 29 else 28)
  else if m = 4 ∨ m = 6 ∨ m = 9 ∨ m = 11 then 30
  else 31

/-- Split a character list at every dash, keeping empty fields. -/
def splitDash : List Char → List (List Char)
  | [] => [[]]
  | c :: rest =>
    if c = '-' then [] :: splitDash rest
    else
      match splitDash rest with
      | [] => [[c]]
      | p :: ps => (c :: p) :: ps

/-- Decimal value of a digit list. -/
def digitsToNat (cs : List Char) : Nat :=
  cs.foldl (fun n c => n * 10 + (c.toNat - 48)) 0

/-- Model of Python datetime.date.fromisoformat: accepts exactly
YYYY-MM-DD with a valid year, month and day, else fails (ValueError
becomes none). -/
def parseIsoDate (s : String) : Option Date :=
  match splitDash s.data with
  | [ys, ms, ds] =>
    if ys.length = 4 ∧ ms.length = 2 ∧ ds.length = 2
        ∧ ys.all Char.isDigit ∧ ms.all Char.isDigit ∧ ds.all Char.isDigit then
      let y := digitsToNat ys
      let m := digitsToNat ms
      let d := digitsToNat ds
      if 1 ≤ y ∧ 1 ≤ m ∧ m ≤ 12 ∧ 1 ≤ d ∧ d ≤ daysInMonth y m then
        some ⟨y, m, d⟩
      else none
    else none
  | _ => none

/-- Zero-padded two-digit rendering of a number. -/
def pad2 (n : Nat) : String :=
  if n < 10 then "0" ++ toString n else toString n

/-- Zero-padded four-digit rendering of a number. -/
def pad4 (n : Nat) : String :=
  if n < 10 then "000" ++ toString n
  else if n < 100 then "00" ++ toString n
  else if n < 1000 then "0" ++ toString n
  else toString n

/-- Model of Python date.isoformat: YYYY-MM-DD. -/
def Date.isoFormat (d : Date) : String :=
  pad4 d.year ++ "-" ++ pad2 d.month ++ "-" ++ pad2 d.day

/-- Strict lexicographic comparison on (year, month, day), as Python
compares date objects. -/
def dateLt (a b : Date) : Bool :=
  Nat.blt a.year b.year ||
    (a.year == b.year &&
      (Nat.blt a.month b.month ||
        (a.month == b.month && Nat.blt a.day b.day)))

/-- Days of the year strictly before month m of year y. -/
def daysBeforeMonth (y m : Nat) : Nat :=
  ((List.range (m - 1)).map (fun i => daysInMonth y (i + 1))).sum

/-- Proleptic Gregorian ordinal, as Python date.toordinal
(0001-01-01 has ordinal 1); subtraction of ordinals is the .days field
of a Python timedelta between two dates. -/
def Date.toOrdinal (d : Date) : Nat :=
  365 * (d.year - 1) + (d.year - 1) / 4 - (d.year - 1) / 100 + (d.year - 1) / 400
    + daysBeforeMonth d.year d.month + d.day

/-- Association list lookup: first binding wins, as a Python dict with
unique keys. -/
def alookup {α : Type} : List (String × α) → String → Option α
  | [], _ => none
  | (k', v) :: rest, k => if k' = k then some v else alookup rest k

/-- Python dict assignment d[k] = v: replaces the first binding of k in
place, or appends a new binding at the end. -/
def aset {α : Type} : List (String × α) → String → α → List (String × α)
  | [], k, v => [(k, v)]
  | (k', v') :: rest, k, v =>
    if k' = k then (k, v) :: rest else (k', v') :: aset rest k v

/-- Python dict.setdefault d.setdefault(k, v): inserts (k, v) at the end
only when k is absent. -/
def asetdefault {α : Type} : List (String × α) → String → α → List (String × α)
  | [], k, v => [(k, v)]
  | (k', v') :: rest, k, v =>
    if k' = k then (k', v') :: rest else (k', v') :: asetdefault rest k v

/-- Python del d[k]: removes the first binding of k. -/
def aerase {α : Type} : List (String × α) → String → List (String × α)
  | [], _ => []
  | (k', v') :: rest, k =>
    if k' = k then rest else (k', v') :: aerase rest k

theorem alookup_aset {α : Type} (l : List (String × α)) (k j : String) (v : α) :
    alookup (aset l k v) j = if k = j then some v else alookup l j := by
  induction l with
  | nil =>
    by_cases h : k = j <;> simp [aset, alookup, h]
  | cons hd tl ih =>
    obtain ⟨k', v'⟩ := hd
    by_cases hk : k' = k
    · subst hk
      by_cases hj : k' = j <;> simp [aset, alookup, hj]
    · by_cases hj : k' = j
      · subst hj
        have hkj : ¬ k = k' := fun h => hk h.symm
        simp [aset, alookup, hk, hkj]
      · simp [aset, alookup, hk, hj, ih]

theorem alookup_asetdefault {α : Type} (l : List (String × α)) (k j : String) (v : α) :
    alookup (asetdefault l k v) j =
      if k = j then some ((alookup l k).getD v) else alookup l j := by
  induction l with
  | nil =>
    by_cases h : k = j <;> simp [asetdefault, alookup, h]
  | cons hd tl ih =>
    obtain ⟨k', v'⟩ := hd
    by_cases hk : k' = k
    · subst hk
      by_cases hj : k' = j <;> simp [asetdefault, alookup, hj]
    · by_cases hj : k' = j
      · subst hj
        have hkj : ¬ k = k' := fun h => hk h.symm
        simp [asetdefault, alookup, hk, hkj]
      · simp [asetdefault, alookup, hk, hj, ih]

theorem asetdefault_of_mem {α : Type} (l : List (String × α)) (k : String) (v w : α)
    (h : alookup l k = some v) : asetdefault l k w = l := by
  induction l with
  | nil => simp [alookup] at h
  | cons hd tl ih =>
    obtain ⟨k', v'⟩ := hd
    by_cases hk : k' = k
    · simp [asetdefault, hk]
    · simp [alookup, hk] at h
      simp [asetdefault, hk, ih h]

theorem alookup_aerase_ne {α : Type} (l : List (String × α)) (k j : String)
    (h : k ≠ j) : alookup (aerase l k) j = alookup l j := by
  induction l with
  | nil => simp [aerase]
  | cons hd tl ih =>
    obtain ⟨k', v'⟩ := hd
    by_cases hk : k' = k
    · subst hk
      have : ¬ k' = j := fun hh => h hh
      simp [aerase, alookup, this]
    · by_cases hj : k' = j
      · have hne : ¬ j = k := fun hh => h hh.symm
        simp [aerase, alookup, hk, hj, hne]
      · simp [aerase, alookup, hk, hj, ih]

theorem alookup_none_of_not_mem_keys {α : Type} (l : List (String × α)) (k : String)
    (h : k ∉ l.map Prod.fst) : alookup l k = none := by
  induction l with
  | nil => simp [alookup]
  | cons hd tl ih =>
    obtain ⟨k', v'⟩ := hd
    simp only [List.map_cons, List.mem_cons] at h
    push_neg at h
    have : ¬ k' = k := fun hh => h.1 hh.symm
    simp [alookup, this, ih h.2]

theorem alookup_aerase_self {α : Type} (l : List (String × α)) (k : String)
    (hnd : (l.map Prod.fst).Nodup) : alookup (aerase l k) k = none := by
  induction l with
  | nil => simp [aerase, alookup]
  | cons hd tl ih =>
    obtain ⟨k', v'⟩ := hd
    simp only [List.map_cons, List.nodup_cons] at hnd
    by_cases hk : k' = k
    · subst hk
      simp only [aerase, if_pos rfl]
      exact alookup_none_of_not_mem_keys tl k' hnd.1
    · simp [aerase, alookup, hk]
      exact ih hnd.2

theorem aerase_alookup_none {α : Type} (l : List (String × α)) (k j : String)
    (h : alookup l j = none) : alookup (aerase l k) j = none := by
  induction l with
  | nil => simp [aerase, alookup]
  | cons hd tl ih =>
    obtain ⟨k', v'⟩ := hd
    simp only [alookup] at h
    by_cases hj : k' = j
    · simp [hj] at h
    · simp only [if_neg hj] at h
      by_cases hk : k' = k
      · simp [aerase, hk, h]
      · simp [aerase, alookup, hk, hj, ih h]

theorem keys_aset {α : Type} (l : List (String × α)) (k : String) (v : α) :
    (aset l k v).map Prod.fst = if (alookup l k).isSome then l.map Prod.fst
      else l.map Prod.fst ++ [k] := by
  induction l with
  | nil => simp [aset, alookup]
  | cons hd tl ih =>
    obtain ⟨k', v'⟩ := hd
    by_cases hk : k' = k
    · subst hk
      simp [aset, alookup]
    · simp [aset, alookup, hk, ih]
      by_cases hs : (alookup tl k).isSome <;> simp [hs]

/-! ## Order records and collections

An order record in the JSON data is either an old-format plain string or
a dict with an order field, an optional remark (get with default empty),
an optional status field and, in records written by the Tkinter
add_order, an optional done boolean. -/

/-- One order record, covering both storage formats used by the code. -/
inductive OrderRec where
  | oldStr (s : String)
  | mk (order : String) (remark : String) (status : Option String) (done : Option Bool)
deriving DecidableEq, Repr

/-- The order-number string of a record: str(rec) for the old format,
rec.get("order", "") for the dict format. -/
def orderNum : OrderRec → String
  | .oldStr s => s
  | .mk o _ _ _ => o

def ORDER_STATUS_PENDING : String := "pending"
def ORDER_STATUS_MAKING : String := "making"
def ORDER_STATUS_DONE : String := "done"
def ORDER_STATUS_PAUSED : String := "paused"

/-- The status the auto-sync reads from a record:
pre_order.get("status", ORDER_STATUS_PENDING) for dicts; old-format
strings have no status. -/
def recStatus : OrderRec → String
  | .oldStr _ => ""
  | .mk _ _ st _ => st.getD ORDER_STATUS_PENDING

/-- Whether a record is a dict-format record whose effective status is
done (the only records the auto-sync migrates). -/
def isDoneRec : OrderRec → Bool
  | .oldStr _ => false
  | .mk _ _ st _ => st.getD ORDER_STATUS_PENDING == ORDER_STATUS_DONE

/-- The order collections of the data dictionary: date string (or the
sentinel TBD) to list of records. -/
structure AppData where
  pre_shipping_orders : List (String × List OrderRec)
  shipping_orders : List (String × List OrderRec)
deriving DecidableEq, Repr

/-- The remark attached to an auto-synced shipping record:
the original remark plus a sync tag, or a default tag when empty. -/
def autoRemark (remark : String) : String :=
  if remark = "" then "[预备订单自动同步]" else remark ++ " [自动同步]"

/-- One step of the inner loop of auto_sync_pre_to_shipping over the
records of one due date: accumulator is (shipping list for the date,
kept pre-records, transferred count). -/
def syncStep (acc : List OrderRec × List OrderRec × Nat) (r : OrderRec) :
    List OrderRec × List OrderRec × Nat :=
  match r with
  | .oldStr s =>
    -- old-format record: no status, kept in pre_shipping_orders
    (acc.1, acc.2.1 ++ [.oldStr s], acc.2.2)
  | .mk o rem st dn =>
    let status := st.getD ORDER_STATUS_PENDING
    if status = ORDER_STATUS_PAUSED then
      (acc.1, acc.2.1 ++ [.mk o rem st dn], acc.2.2)
    else if status ≠ ORDER_STATUS_DONE then
      (acc.1, acc.2.1 ++ [.mk o rem st dn], acc.2.2)
    else if acc.1.any (fun so => orderNum so == o) then
      -- already present in the shipping list: not appended, not kept
      acc
    else
      (acc.1 ++ [.mk o (autoRemark rem) none none], acc.2.1, acc.2.2 + 1)

/-- Processing of one (date, records) entry of pre_shipping_orders by
auto_sync_pre_to_shipping; accumulator is (data, dates_to_remove,
transferred count). -/
def syncDate (today : Date) (acc : AppData × List String × Nat)
    (entry : String × List OrderRec) : AppData × List String × Nat :=
  let data := acc.1
  let toRemove := acc.2.1
  let cnt := acc.2.2
  let dateStr := entry.1
  let recs := entry.2
  if dateStr = "TBD" then acc
  else
    match parseIsoDate dateStr with
    | none => acc
    | some orderDate =>
      if dateLt today orderDate then acc
      else if recs = [] then (data, toRemove ++ [dateStr], cnt)
      else
        let ship0 := (alookup data.shipping_orders dateStr).getD []
        let shipping1 := asetdefault data.shipping_orders dateStr []
        let res := recs.foldl syncStep (ship0, [], 0)
        let shipping2 := aset shipping1 dateStr res.1
        let pre1 := if res.2.1 = [] then data.pre_shipping_orders
          else aset data.pre_shipping_orders dateStr res.2.1
        let toRemove1 := if res.2.1 = [] then toRemove ++ [dateStr] else toRemove
        (⟨pre1, shipping2⟩, toRemove1, cnt + res.2.2)

/-- MainWindow.auto_sync_pre_to_shipping of the Qt implementation:
iterates over pre_shipping_orders, migrates due done orders into
shipping_orders, then deletes the emptied date keys; returns the new
data and the transferred count. -/
def auto_sync_pre_to_shipping (today : Date) (data : AppData) : AppData × Nat :=
  let res := data.pre_shipping_orders.foldl (syncDate today) (data, [], 0)
  (⟨res.2.1.foldl aerase res.1.pre_shipping_orders, res.1.shipping_orders⟩, res.2.2)

/-! ## Persistence: the JSON document, load_data and save_data
(Tkinter implementation, src/daily_reminder-20250926.py). -/

/-- A JSON value as stored in data.json. -/
inductive JVal where
  | null
  | bool (b : Bool)
  | num (n : Int)
  | str (s : String)
  | arr (xs : List JVal)
  | obj (kvs : List (String × JVal))

/-- SAVE_DIR, a per-user directory under the home directory. -/
def SAVE_DIR (home : String) : String := home ++ "/DailyReminderData"

/-- The default_data dictionary of the Tkinter implementation. -/
def default_data (home : String) : List (String × JVal) :=
  [("work_plan", JVal.obj ((List.range 7).map
      (fun i => (toString i, JVal.str ("周" ++ toString (i + 1) ++ "：待填写工作内容"))))),
   ("shipping_orders", JVal.obj []),
   ("pre_shipping_orders", JVal.obj []),
   ("reminder_enabled", JVal.bool true),
   ("reminder_interval", JVal.num 120),
   ("startup_enabled", JVal.bool false),
   ("excel_dir", JVal.str (SAVE_DIR home ++ "/orders_import")),
   ("life_settings", JVal.obj [("current_age", JVal.num 25), ("ideal_age", JVal.num 80)]),
   ("festival_reminders", JVal.obj [("01-01", JVal.str "元旦"), ("02-14", JVal.str "情人节"),
      ("05-01", JVal.str "劳动节"), ("10-01", JVal.str "国庆节")]),
   ("clock_settings", JVal.obj [("clock_in_enabled", JVal.bool false),
      ("clock_out_enabled", JVal.bool false),
      ("clock_in_time", JVal.str "09:00"), ("clock_out_time", JVal.str "18:00"),
      ("clock_in_message", JVal.str "上班时间到了，记得打卡哦！"),
      ("clock_out_message", JVal.str "下班时间到了，记得打卡哦！")]),
   ("custom_reminders", JVal.arr [])]

/-- Contents of a file on disk: either a readable JSON document or a
corrupt or unreadable file (json.JSONDecodeError or any other read
error). -/
inductive FileContent where
  | corrupt
  | json (d : List (String × JVal))

/-- The fragment of the filesystem the persistence code touches:
DATA_FILE and DATA_FILE + ".backup", each either absent or with some
contents. -/
structure Disk where
  dataFile : Option FileContent
  backupFile : Option FileContent

/-- The default-merge loop of load_data: for key, value in
default_data.items(): if key not in data: data[key] = value. -/
def mergeDefaults (defaults stored : List (String × JVal)) : List (String × JVal) :=
  defaults.foldl (fun d kv => if (alookup d kv.1).isSome then d else d ++ [kv]) stored

/-- load_data: returns the stored document merged against the defaults,
or a copy of default_data when the file is missing or unreadable. -/
def load_data (home : String) (disk : Disk) : List (String × JVal) :=
  match disk.dataFile with
  | none => default_data home
  | some FileContent.corrupt => default_data home
  | some (FileContent.json stored) => mergeDefaults (default_data home) stored

/-- save_data: when DATA_FILE exists it is first copied to the .backup
path, then the dictionary is serialized over DATA_FILE. The writeOk
oracle is false when the write raises (PermissionError and similar); the
copy precedes the failing open, and the exception is caught inside
save_data, so the data file keeps its old contents. -/
def save_data (writeOk : Bool) (d : List (String × JVal)) (disk : Disk) : Disk :=
  let backed : Disk :=
    match disk.dataFile with
    | some c => { disk with backupFile := some c }
    | none => disk
  if writeOk then { backed with dataFile := some (FileContent.json d) } else backed

/-! ## ReminderApp.add_order (Tkinter implementation) -/

/-- Outcome of add_order: the input-validation warning, the
duplicate-order warning, or a successful append (only this last path
calls save_data). -/
inductive AddResult where
  | emptyInput
  | duplicate
  | added
deriving DecidableEq, Repr

/-- The duplicate test of add_order: (item == o) or (isinstance(item,
dict) and item.get("order") == o). -/
def dupMatches (o : String) (r : OrderRec) : Bool :=
  match r with
  | .oldStr s => s == o
  | .mk ord _ _ _ => ord == o

/-- ReminderApp.add_order on date d, order number o and remark: appends
a dict record to the chosen collection unless the date or order is
empty or the order number already exists under that date. -/
def add_order (is_shipping : Bool) (d o remark : String) (data : AppData) :
    AppData × AddResult :=
  if d = "" ∨ o = "" then (data, AddResult.emptyInput)
  else
    let coll := if is_shipping then data.shipping_orders else data.pre_shipping_orders
    let coll1 := asetdefault coll d []
    let lst := (alookup coll1 d).getD []
    if lst.any (dupMatches o) then
      ((if is_shipping then { data with shipping_orders := coll1 }
        else { data with pre_shipping_orders := coll1 }), AddResult.duplicate)
    else
      let newRec := if is_shipping then OrderRec.mk o remark none none
        else OrderRec.mk o remark none (some false)
      let coll2 := aset coll1 d (lst ++ [newRec])
      ((if is_shipping then { data with shipping_orders := coll2 }
        else { data with pre_shipping_orders := coll2 }), AddResult.added)

/-! ## import_orders_from_excel (Qt implementation) -/

/-- One spreadsheet cell as returned by openpyxl with data_only=True:
absent or None, a string, a number, or a date or datetime value (the
code immediately takes the date part of a datetime). -/
inductive Cell where
  | empty
  | str (s : String)
  | num (n : Int)
  | date (d : Date)
deriving DecidableEq, Repr

/-- Python truthiness of a cell value: None, the empty string and 0 are
falsy. -/
def cellFalsy : Cell → Bool
  | Cell.empty => true
  | Cell.str s => s == ""
  | Cell.num n => n == 0
  | Cell.date _ => false

/-- Python str() of a cell value. -/
def cellStr : Cell → String
  | Cell.empty => "None"
  | Cell.str s => s
  | Cell.num n => toString n
  | Cell.date d => d.isoFormat

/-- Whitespace test for str.strip(). -/
def isSpaceChar (c : Char) : Bool :=
  c == ' ' || c == '\t' || c == '\n' || c == '\r'

/-- Model of Python str.strip(): removes leading and trailing
whitespace. -/
def strip (s : String) : String :=
  String.mk (((s.data.dropWhile isSpaceChar).reverse.dropWhile isSpaceChar).reverse)

/-- The date text taken from the first cell: date and datetime cells are
ISO-formatted, anything else goes through str(...).strip(). -/
def excelDateStr : Cell → String
  | Cell.date d => d.isoFormat
  | c => strip (cellStr c)

/-- Column 2 of a row: str(row[1]).strip() if len(row) > 1 and row[1]
else the empty string. -/
def rowOrder (row : List Cell) : String :=
  let c := row.getD 1 Cell.empty
  if cellFalsy c then "" else strip (cellStr c)

/-- Column 3 of a row: str(row[2]).strip() if len(row) > 2 and row[2]
else the default type keyword. -/
def rowTyp (row : List Cell) : String :=
  let c := row.getD 2 Cell.empty
  if cellFalsy c then "发货" else strip (cellStr c)

/-- Whether the pattern occurs at the head of the character list. -/
def charsStart : List Char → List Char → Bool
  | [], _ => true
  | _ :: _, [] => false
  | p :: ps, c :: rest => p == c && charsStart ps rest

/-- Whether the pattern occurs anywhere in the character list. -/
def charsContain (pat cs : List Char) : Bool :=
  match cs with
  | [] => pat.isEmpty
  | _ :: rest => charsStart pat cs || charsContain pat rest

/-- Substring test, as the Python in operator on strings. -/
def strContains (hay pat : String) : Bool :=
  charsContain pat.data hay.data

/-- Row validation of the import loop: skips a row with a falsy first
cell, an unparseable date or an empty order number, otherwise yields
the ISO date key, the order number and the type keyword. -/
def parseRow (row : List Cell) : Option (String × String × String) :=
  if cellFalsy (row.headD Cell.empty) then none
  else
    match parseIsoDate (excelDateStr (row.headD Cell.empty)) with
    | none => none
    | some dObj =>
      let date_iso := dObj.isoFormat
      let order := rowOrder row
      if order = "" then none
      else some (date_iso, order, rowTyp row)

/-- Processing of one data row: routes by the 发货 keyword, creates the
date key, and appends the order number unless already present. -/
def processRow (st : AppData × Nat) (row : List Cell) : AppData × Nat :=
  match parseRow row with
  | none => st
  | some (date_iso, order, typ) =>
    let data := st.1
    let count := st.2
    let isShip := strContains typ "发货"
    let coll := if isShip then data.shipping_orders else data.pre_shipping_orders
    let coll1 := asetdefault coll date_iso []
    let lst := (alookup coll1 date_iso).getD []
    if order ∈ lst.map orderNum then
      ((if isShip then { data with shipping_orders := coll1 }
        else { data with pre_shipping_orders := coll1 }), count)
    else
      let coll2 := aset coll1 date_iso (lst ++ [OrderRec.oldStr order])
      ((if isShip then { data with shipping_orders := coll2 }
        else { data with pre_shipping_orders := coll2 }), count + 1)

/-- import_orders_from_excel over the list of workbooks found in the
configured folder (each workbook is its list of rows; iter_rows with
min_row=2 starts at the second row); returns the updated data and the
number of newly appended orders. -/
def import_orders_from_excel (files : List (List (List Cell))) (data : AppData) :
    AppData × Nat :=
  files.foldl (fun st wb => (wb.drop 1).foldl processRow st) (data, 0)

/-- Total number of order records stored in both collections. -/
def totalOrders (data : AppData) : Nat :=
  (data.shipping_orders.map (fun e => e.2.length)).sum
    + (data.pre_shipping_orders.map (fun e => e.2.length)).sum

/-! ## compute_life_ui (Tkinter implementation) -/

/-- The life_settings sub-dictionary as the code reads it: every field
optional, ages read through int(...). -/
structure LifeSettings where
  current_age : Option Int
  ideal_age : Option Int
  remain_base_days : Option Int
  remain_base_date : Option String
deriving DecidableEq, Repr

/-- The daily-countdown baseline of compute_life_ui: initializes
remain_base_days and remain_base_date when either is missing (the code
also persists this via save_data), then returns the stored base
remaining days and the parsed base date (today on a ValueError). -/
def lifeBaseline (today : Date) (ls : LifeSettings) : Int × Date :=
  let current_age := ls.current_age.getD 36
  let ideal_age0 := ls.ideal_age.getD 70
  let ideal_age := if ideal_age0 ≤ 0 then 80 else ideal_age0
  let ls1 :=
    if ls.remain_base_days.isNone || ls.remain_base_date.isNone then
      { ls with remain_base_days := some (max (ideal_age - current_age) 0 * 365),
                remain_base_date := some today.isoFormat }
    else ls
  let base_date :=
    match parseIsoDate (ls1.remain_base_date.getD today.isoFormat) with
    | some bd => bd
    | none => today
  (ls1.remain_base_days.getD 0, base_date)

/-- The life-stage icon and label chosen from the current age. -/
def lifeStage (current_age : Int) : String × String :=
  if current_age < 12 then ("👶", "幼年")
  else if current_age < 30 then ("🧑", "青年")
  else if current_age < 50 then ("👨", "中年")
  else ("👴", "老年")

/-- compute_life_ui: returns the progress value, the stage icon and
text, and the remaining-days count shown as 余生 N 天. -/
def compute_life_ui (today : Date) (ls : LifeSettings) : ℚ × String × String × Int :=
  let current_age := ls.current_age.getD 36
  let ideal_age0 := ls.ideal_age.getD 70
  let ideal_age := if ideal_age0 ≤ 0 then 80 else ideal_age0
  let base := lifeBaseline today ls
  let delta : Int := (today.toOrdinal : Int) - (base.2.toOrdinal : Int)
  let remaining_days := max (base.1 - max delta 0) 0
  let stage := lifeStage current_age
  let ideal_total : Int := max ideal_age 1 * 365
  let elapsed : Int := max (ideal_total - remaining_days) 0
  let value : ℚ := min (max ((elapsed : ℚ) / (ideal_total : ℚ)) 0) 1
  (value, stage.1, stage.2, remaining_days)

/-! ## check_trial (Tkinter implementation) -/

def TRIAL_DAYS : Int := 7

/-- The activation record stored in activation.json: the activated flag
(truthiness of act_data.get("activated")) and the optional trial_start
string; act_data.get("trial_start") yielding None or the empty string
are both falsy. -/
structure ActData where
  activated : Bool
  trial_start : Option String
deriving DecidableEq, Repr

/-- check_trial: activated programs pass; a missing or invalid trial
start is reset to today (and passes); otherwise the trial passes while
(today - start).days is below TRIAL_DAYS. Returns the verdict and the
possibly updated activation record. -/
def check_trial (today : Date) (act : ActData) : Bool × ActData :=
  if act.activated then (true, act)
  else
    let start := act.trial_start.getD ""
    if start = "" then
      (true, { act with trial_start := some today.isoFormat })
    else
      match parseIsoDate start with
      | none => (true, { act with trial_start := some today.isoFormat })
      | some start_date =>
        let days_used : Int := (today.toOrdinal : Int) - (start_date.toOrdinal : Int)
        if days_used < TRIAL_DAYS then (true, act) else (false, act)

/-! ## Helper lemmas for the persistence layer -/

theorem alookup_append_single {α : Type} (l : List (String × α)) (k0 k : String) (v0 : α) :
    alookup (l ++ [(k0, v0)]) k =
      (alookup l k).or (if k0 = k then some v0 else none) := by
  induction l with
  | nil => by_cases h : k0 = k <;> simp [alookup, h]
  | cons hd tl ih =>
    obtain ⟨k', v'⟩ := hd
    by_cases h : k' = k <;> simp [alookup, h, ih]

theorem alookup_mergeDefaults (defaults stored : List (String × JVal)) (k : String) :
    alookup (mergeDefaults defaults stored) k =
      (alookup stored k).or (alookup defaults k) := by
  induction defaults generalizing stored with
  | nil => simp [mergeDefaults, alookup]
  | cons kv rest ih =>
    obtain ⟨k0, v0⟩ := kv
    have hstep : mergeDefaults ((k0, v0) :: rest) stored
        = mergeDefaults rest
            (if (alookup stored k0).isSome then stored else stored ++ [(k0, v0)]) := rfl
    rw [hstep, ih]
    by_cases h0 : (alookup stored k0).isSome
    · rw [if_pos h0]
      by_cases hk : k0 = k
      · subst hk
        obtain ⟨v, hv⟩ := Option.isSome_iff_exists.mp h0
        simp [alookup, hv]
      · simp [alookup, hk]
    · rw [if_neg h0]
      by_cases hk : k0 = k
      · subst hk
        have hn : alookup stored k0 = none := Option.not_isSome_iff_eq_none.mp h0
        simp [alookup_append_single, alookup, hn]
      · cases hs : alookup stored k <;> simp [alookup_append_single, alookup, hk, hs]

theorem alookup_isSome_of_mem {α : Type} (l : List (String × α)) (kv : String × α)
    (h : kv ∈ l) : (alookup l kv.1).isSome = true := by
  induction l with
  | nil => cases h
  | cons hd tl ih =>
    obtain ⟨k', v'⟩ := hd
    rcases List.mem_cons.mp h with h1 | h2
    · subst h1; simp [alookup]
    · by_cases hk : k' = kv.1 <;> simp [alookup, hk, ih h2]

theorem mergeDefaults_id (defaults stored : List (String × JVal))
    (h : ∀ kv ∈ defaults, (alookup stored kv.1).isSome = true) :
    mergeDefaults defaults stored = stored := by
  induction defaults with
  | nil => rfl
  | cons kv rest ih =>
    have h1 := h kv (List.mem_cons_self _ _)
    have hstep : mergeDefaults (kv :: rest) stored = mergeDefaults rest stored := by
      show mergeDefaults rest
          (if (alookup stored kv.1).isSome then stored else stored ++ [kv]) = _
      rw [if_pos h1]
    rw [hstep]
    exact ih (fun kv2 hm => h kv2 (List.mem_cons_of_mem _ hm))

/-! ## Claim theorems -/

/-- C3: load_data on a stored JSON object returns the object merged
against default_data: every default key is present afterwards, a stored
key keeps its stored value, a missing key is bound to its default; a
missing data file yields a copy of the defaults. -/
theorem load_data_merges_defaults (home : String) (stored : List (String × JVal))
    (bk : Option FileContent) (k : String)
    (hk : (alookup (default_data home) k).isSome = true) :
    (∀ v, alookup stored k = some v →
      alookup (load_data home ⟨some (FileContent.json stored), bk⟩) k = some v) ∧
    (alookup stored k = none →
      alookup (load_data home ⟨some (FileContent.json stored), bk⟩) k
        = alookup (default_data home) k) ∧
    (alookup (load_data home ⟨some (FileContent.json stored), bk⟩) k).isSome = true ∧
    load_data home ⟨none, bk⟩ = default_data home := by
  refine ⟨?_, ?_, ?_, rfl⟩
  · intro v hv
    simp [load_data, alookup_mergeDefaults, hv]
  · intro hv
    simp [load_data, alookup_mergeDefaults, hv]
  · cases hv : alookup stored k with
    | none => simp [load_data, alookup_mergeDefaults, hv, hk]
    | some v => simp [load_data, alookup_mergeDefaults, hv]

theorem load_data_merges_defaults_witness :
    alookup (load_data "" ⟨some (FileContent.json [("reminder_interval", JVal.num 5)]), none⟩)
        "reminder_interval" = some (JVal.num 5) ∧
    alookup (load_data "" ⟨some (FileContent.json [("reminder_interval", JVal.num 5)]), none⟩)
        "reminder_enabled" = alookup (default_data "") "reminder_enabled" :=
  ⟨(load_data_merges_defaults "" [("reminder_interval", JVal.num 5)] none
      "reminder_interval" rfl).1 (JVal.num 5) rfl,
   (load_data_merges_defaults "" [("reminder_interval", JVal.num 5)] none
      "reminder_enabled" rfl).2.1 rfl⟩

/-- C4: when the data file exists, save_data copies its previous
contents to the backup path and then overwrites the data file with the
serialized dictionary; when it does not exist, the backup file is left
untouched. -/
theorem save_data_backup_spec (d : List (String × JVal)) (disk : Disk) :
    (∀ c, disk.dataFile = some c →
      (save_data true d disk).backupFile = some c ∧
      (save_data true d disk).dataFile = some (FileContent.json d)) ∧
    (disk.dataFile = none →
      (save_data true d disk).backupFile = disk.backupFile ∧
      (save_data true d disk).dataFile = some (FileContent.json d)) := by
  obtain ⟨df, bf⟩ := disk
  constructor
  · intro c hc
    cases df with
    | none => cases hc
    | some c0 =>
      cases hc
      exact ⟨rfl, rfl⟩
  · intro hdf
    cases df with
    | none => exact ⟨rfl, rfl⟩
    | some c0 => cases hdf

theorem save_data_backup_spec_witness :
    (save_data true [] ⟨some (FileContent.json [("a", JVal.null)]), none⟩).backupFile
      = some (FileContent.json [("a", JVal.null)]) ∧
    (save_data true [] ⟨some (FileContent.json [("a", JVal.null)]), none⟩).dataFile
      = some (FileContent.json []) :=
  (save_data_backup_spec [] ⟨some (FileContent.json [("a", JVal.null)]), none⟩).1
    (FileContent.json [("a", JVal.null)]) rfl

/-- C5: saving a data dictionary that contains every key of
default_data and loading it back returns the same dictionary. -/
theorem save_then_load_roundtrip (home : String) (d : List (String × JVal)) (disk : Disk)
    (h : ∀ k, (alookup (default_data home) k).isSome = true →
      (alookup d k).isSome = true) :
    load_data home (save_data true d disk) = d := by
  obtain ⟨df, bf⟩ := disk
  have hsave : (save_data true d ⟨df, bf⟩).dataFile = some (FileContent.json d) := by
    cases df <;> rfl
  have hload : load_data home (save_data true d ⟨df, bf⟩)
      = mergeDefaults (default_data home) d := by
    cases df <;> simp [load_data, save_data]
  rw [hload]
  exact mergeDefaults_id _ _
    (fun kv hm => h kv.1 (alookup_isSome_of_mem _ kv hm))

theorem save_then_load_roundtrip_witness :
    load_data "" (save_data true (default_data "") ⟨none, none⟩) = default_data "" :=
  save_then_load_roundtrip "" (default_data "") ⟨none, none⟩ (fun _ hk => hk)

/-- C6: persistence errors are absorbed, never propagated: the model of
load_data and save_data is total; a corrupt data file makes load_data
return the defaults; a failed write leaves the data file unchanged on
disk, so a subsequent load still sees the old state (in-memory and
on-disk state diverge until the next successful save). -/
theorem persistence_errors_absorbed (home : String) (d : List (String × JVal))
    (disk : Disk) :
    (disk.dataFile = some FileContent.corrupt →
      load_data home disk = default_data home) ∧
    (save_data false d disk).dataFile = disk.dataFile ∧
    load_data home (save_data false d disk) = load_data home disk := by
  obtain ⟨df, bf⟩ := disk
  refine ⟨?_, ?_, ?_⟩
  · intro hc
    cases df with
    | none => cases hc
    | some c0 => cases hc; rfl
  · cases df <;> rfl
  · cases df <;> simp [load_data, save_data]

theorem persistence_errors_absorbed_witness :
    load_data "" ⟨some FileContent.corrupt, none⟩ = default_data "" ∧
    (save_data false [("a", JVal.num 1)] ⟨some FileContent.corrupt, none⟩).dataFile
      = some FileContent.corrupt :=
  ⟨(persistence_errors_absorbed "" [] ⟨some FileContent.corrupt, none⟩).1 rfl,
   (persistence_errors_absorbed "" [("a", JVal.num 1)]
      ⟨some FileContent.corrupt, none⟩).2.1⟩

/-- C9: compute_life_ui is total on the modelled data dictionaries (the
Python body, wrapped in a broad except, cannot raise), its progress
value lies in the closed interval [0, 1], and its remaining-days count
is non-negative and equals the stored base remaining days minus the
number of days elapsed since the stored base date, clamped at zero. -/
theorem compute_life_ui_safe (today : Date) (ls : LifeSettings) :
    0 ≤ (compute_life_ui today ls).1 ∧ (compute_life_ui today ls).1 ≤ 1 ∧
    0 ≤ (compute_life_ui today ls).2.2.2 ∧
    (compute_life_ui today ls).2.2.2 =
      max ((lifeBaseline today ls).1 -
        ((today.toOrdinal - (lifeBaseline today ls).2.toOrdinal : Nat) : Int)) 0 := by
  refine ⟨le_min (le_max_right _ _) zero_le_one, min_le_right _ _,
    le_max_right _ _, ?_⟩
  have h4 : (compute_life_ui today ls).2.2.2
      = max ((lifeBaseline today ls).1
          - max ((today.toOrdinal : Int) - ((lifeBaseline today ls).2.toOrdinal : Int)) 0)
          0 := rfl
  rw [h4]
  omega

/-- C10: check_trial passes exactly when the program is activated, or
the stored trial start is missing or not a valid ISO date (being then
reset to today), or fewer than TRIAL_DAYS days have elapsed from the
trial start to today; with 7 or more days elapsed and no activation it
fails. -/
theorem check_trial_gating (today : Date) (act : ActData) :
    ((check_trial today act).1 = true ↔
      act.activated = true ∨
      parseIsoDate (act.trial_start.getD "") = none ∨
      ∃ sd, parseIsoDate (act.trial_start.getD "") = some sd ∧
        (today.toOrdinal : Int) - (sd.toOrdinal : Int) < TRIAL_DAYS) ∧
    (act.activated = false → parseIsoDate (act.trial_start.getD "") = none →
      (check_trial today act).2.trial_start = some today.isoFormat ∧
      (check_trial today act).1 = true) := by
  by_cases ha : act.activated = true
  · constructor
    · simp [check_trial, ha]
    · intro hfa
      rw [ha] at hfa
      cases hfa
  · have ha' : act.activated = false := by
      cases hb : act.activated
      · rfl
      · exact absurd hb ha
    by_cases hs : act.trial_start.getD "" = ""
    · have hp : parseIsoDate (act.trial_start.getD "") = none := by
        rw [hs]; rfl
      constructor
      · constructor
        · intro _
          exact Or.inr (Or.inl (by rw [hs]; rfl))
        · intro _
          simp [check_trial, ha', hs]
      · intro _ _
        simp [check_trial, ha', hs]
    · cases hp : parseIsoDate (act.trial_start.getD "") with
      | none =>
        constructor
        · simp [check_trial, ha', hs, hp]
        · intro _ _
          simp [check_trial, ha', hs, hp]
      | some sd =>
        by_cases hlt : (today.toOrdinal : Int) - (sd.toOrdinal : Int) < TRIAL_DAYS
        · constructor
          · simp [check_trial, ha', hs, hp, hlt]
          · intro _ hnone
            cases hnone
        · constructor
          · simp only [check_trial, ha', hs, hp]
            simp [ha', hlt]
          · intro _ hnone
            cases hnone

theorem check_trial_gating_witness :
    (check_trial ⟨2024, 1, 1⟩ ⟨false, none⟩).1 = true ∧
    (check_trial ⟨2024, 1, 1⟩ ⟨false, none⟩).2.trial_start
      = some (Date.isoFormat ⟨2024, 1, 1⟩) := by
  have h := (check_trial_gating ⟨2024, 1, 1⟩ ⟨false, none⟩).2 rfl (by rfl)
  exact ⟨h.2, h.1⟩

/-- C8: add_order with a non-empty date and order number: when the
order number already exists under that date (as a plain string or as a
dict with that order field) the data dictionary is returned entirely
unchanged with the duplicate warning (no append, no save); when it is
new, exactly one record is appended to that date's list in the chosen
collection and the other collection is untouched. -/
theorem add_order_duplicate_atomic (is_shipping : Bool) (d o remark : String)
    (data : AppData) (hd : d ≠ "") (ho : o ≠ "") :
    (((alookup (if is_shipping then data.shipping_orders
        else data.pre_shipping_orders) d).getD []).any (dupMatches o) = true →
      add_order is_shipping d o remark data = (data, AddResult.duplicate)) ∧
    (((alookup (if is_shipping then data.shipping_orders
        else data.pre_shipping_orders) d).getD []).any (dupMatches o) = false →
      (add_order is_shipping d o remark data).2 = AddResult.added ∧
      alookup (if is_shipping then (add_order is_shipping d o remark data).1.shipping_orders
          else (add_order is_shipping d o remark data).1.pre_shipping_orders) d
        = some (((alookup (if is_shipping then data.shipping_orders
            else data.pre_shipping_orders) d).getD [])
          ++ [if is_shipping then OrderRec.mk o remark none none
              else OrderRec.mk o remark none (some false)]) ∧
      (∀ j, j ≠ d →
        alookup (if is_shipping then (add_order is_shipping d o remark data).1.shipping_orders
            else (add_order is_shipping d o remark data).1.pre_shipping_orders) j
          = alookup (if is_shipping then data.shipping_orders
              else data.pre_shipping_orders) j) ∧
      (if is_shipping then
        (add_order is_shipping d o remark data).1.pre_shipping_orders
          = data.pre_shipping_orders
       else (add_order is_shipping d o remark data).1.shipping_orders
          = data.shipping_orders)) := by
  have hde : ¬ (d = "" ∨ o = "") := by
    intro h
    cases h with
    | inl h1 => exact hd h1
    | inr h2 => exact ho h2
  cases is_shipping with
  | false =>
    simp only [Bool.false_eq_true, if_false]
    cases hcoll : alookup data.pre_shipping_orders d with
    | none =>
      have h1 : alookup (asetdefault data.pre_shipping_orders d []) d = some [] := by
        rw [alookup_asetdefault]
        simp [hcoll]
      have heq : add_order false d o remark data
          = (⟨aset (asetdefault data.pre_shipping_orders d []) d
              [OrderRec.mk o remark none (some false)], data.shipping_orders⟩,
             AddResult.added) := by
        unfold add_order
        rw [if_neg hde]
        simp only [Bool.false_eq_true, if_false]
        rw [h1]
        simp only [Option.getD_some, List.any_nil, List.nil_append,
          Bool.false_eq_true, if_false]
      constructor
      · intro hdup
        simp at hdup
      · intro _
        refine ⟨by rw [heq], ?_, ?_, by rw [heq]⟩
        · rw [heq]
          simp [alookup_aset]
        · intro j hj
          have hjd : ¬ d = j := fun h => hj h.symm
          rw [heq]
          simp only
          rw [alookup_aset, if_neg hjd, alookup_asetdefault, if_neg hjd]
    | some lst =>
      have hset : asetdefault data.pre_shipping_orders d [] = data.pre_shipping_orders :=
        asetdefault_of_mem _ _ _ _ hcoll
      constructor
      · intro hdup
        simp only [Option.getD_some] at hdup
        unfold add_order
        rw [if_neg hde]
        simp only [Bool.false_eq_true, if_false]
        rw [hset, hcoll]
        simp only [Option.getD_some, hdup, if_true]
      · intro hdup
        simp only [Option.getD_some] at hdup
        have heq : add_order false d o remark data
            = (⟨aset data.pre_shipping_orders d
                (lst ++ [OrderRec.mk o remark none (some false)]),
               data.shipping_orders⟩, AddResult.added) := by
          unfold add_order
          rw [if_neg hde]
          simp only [Bool.false_eq_true, if_false]
          rw [hset, hcoll]
          simp only [Option.getD_some, hdup, Bool.false_eq_true, if_false]
        refine ⟨by rw [heq], ?_, ?_, by rw [heq]⟩
        · rw [heq]
          simp [alookup_aset]
        · intro j hj
          have hjd : ¬ d = j := fun h => hj h.symm
          rw [heq]
          simp only
          rw [alookup_aset, if_neg hjd]
  | true =>
    simp only [if_true]
    cases hcoll : alookup data.shipping_orders d with
    | none =>
      have h1 : alookup (asetdefault data.shipping_orders d []) d = some [] := by
        rw [alookup_asetdefault]
        simp [hcoll]
      have heq : add_order true d o remark data
          = (⟨data.pre_shipping_orders,
              aset (asetdefault data.shipping_orders d []) d
                [OrderRec.mk o remark none none]⟩, AddResult.added) := by
        unfold add_order
        rw [if_neg hde]
        simp only [if_true]
        rw [h1]
        simp only [Option.getD_some, List.any_nil, List.nil_append,
          Bool.false_eq_true, if_false]
      constructor
      · intro hdup
        simp at hdup
      · intro _
        refine ⟨by rw [heq], ?_, ?_, by rw [heq]⟩
        · rw [heq]
          simp [alookup_aset]
        · intro j hj
          have hjd : ¬ d = j := fun h => hj h.symm
          rw [heq]
          simp only
          rw [alookup_aset, if_neg hjd, alookup_asetdefault, if_neg hjd]
    | some lst =>
      have hset : asetdefault data.shipping_orders d [] = data.shipping_orders :=
        asetdefault_of_mem _ _ _ _ hcoll
      constructor
      · intro hdup
        simp only [Option.getD_some] at hdup
        unfold add_order
        rw [if_neg hde]
        simp only [if_true]
        rw [hset, hcoll]
        simp only [Option.getD_some, hdup, if_true]
      · intro hdup
        simp only [Option.getD_some] at hdup
        have heq : add_order true d o remark data
            = (⟨data.pre_shipping_orders,
                aset data.shipping_orders d
                  (lst ++ [OrderRec.mk o remark none none])⟩, AddResult.added) := by
          unfold add_order
          rw [if_neg hde]
          simp only [if_true]
          rw [hset, hcoll]
          simp only [Option.getD_some, hdup, Bool.false_eq_true, if_false]
        refine ⟨by rw [heq], ?_, ?_, by rw [heq]⟩
        · rw [heq]
          simp [alookup_aset]
        · intro j hj
          have hjd : ¬ d = j := fun h => hj h.symm
          rw [heq]
          simp only
          rw [alookup_aset, if_neg hjd]


theorem add_order_duplicate_atomic_witness :
    add_order true "2024-01-01" "A" "" ⟨[], [("2024-01-01", [OrderRec.oldStr "A"])]⟩
      = (⟨[], [("2024-01-01", [OrderRec.oldStr "A"])]⟩, AddResult.duplicate) ∧
    (add_order false "2024-01-01" "B" "r" ⟨[], []⟩).2 = AddResult.added := by
  constructor
  · exact (add_order_duplicate_atomic true "2024-01-01" "A" ""
      ⟨[], [("2024-01-01", [OrderRec.oldStr "A"])]⟩
      (by decide) (by decide)).1 (by decide)
  · exact ((add_order_duplicate_atomic false "2024-01-01" "B" "r" ⟨[], []⟩
      (by decide) (by decide)).2 (by decide)).1

/-! ## Helper lemmas for the Excel import -/

theorem parseRow_none_of_falsy (row : List Cell)
    (h : cellFalsy (row.headD Cell.empty) = true) : parseRow row = none := by
  unfold parseRow
  rw [if_pos h]

theorem parseRow_none_of_badDate (row : List Cell)
    (h : parseIsoDate (excelDateStr (row.headD Cell.empty)) = none) :
    parseRow row = none := by
  unfold parseRow
  by_cases hf : cellFalsy (row.headD Cell.empty) = true
  · rw [if_pos hf]
  · rw [if_neg hf, h]

theorem parseRow_none_of_emptyOrder (row : List Cell)
    (h : rowOrder row = "") : parseRow row = none := by
  unfold parseRow
  by_cases hf : cellFalsy (row.headD Cell.empty) = true
  · rw [if_pos hf]
  · rw [if_neg hf]
    cases hp : parseIsoDate (excelDateStr (row.headD Cell.empty)) with
    | none => rfl
    | some dd =>
      dsimp only
      rw [if_pos h]

theorem processRow_of_none (st : AppData × Nat) (row : List Cell)
    (h : parseRow row = none) : processRow st row = st := by
  unfold processRow
  rw [h]

theorem parseRow_some_inv (row : List Cell) (dio o t : String)
    (h : parseRow row = some (dio, o, t)) :
    ∃ dd, parseIsoDate (excelDateStr (row.headD Cell.empty)) = some dd ∧
      dio = dd.isoFormat ∧ o = rowOrder row ∧ t = rowTyp row := by
  unfold parseRow at h
  by_cases hf : cellFalsy (row.headD Cell.empty) = true
  · rw [if_pos hf] at h
    cases h
  · rw [if_neg hf] at h
    cases hp : parseIsoDate (excelDateStr (row.headD Cell.empty)) with
    | none =>
      rw [hp] at h
      cases h
    | some dd =>
      rw [hp] at h
      dsimp only at h
      by_cases ho : rowOrder row = ""
      · rw [if_pos ho] at h
        cases h
      · rw [if_neg ho] at h
        have h1 := Option.some.inj h
        refine ⟨dd, rfl, ?_, ?_, ?_⟩
        · exact (congrArg Prod.fst h1).symm
        · exact (congrArg (fun p => p.2.1) h1).symm
        · exact (congrArg (fun p => p.2.2) h1).symm

theorem sumLens_asetdefault {α : Type} (l : List (String × List α)) (k : String) :
    ((asetdefault l k []).map (fun e => e.2.length)).sum
      = (l.map (fun e => e.2.length)).sum := by
  induction l with
  | nil => simp [asetdefault]
  | cons hd tl ih =>
    obtain ⟨k', v'⟩ := hd
    by_cases hk : k' = k <;> simp [asetdefault, hk, ih]

theorem sumLens_aset_append {α : Type} (l : List (String × List α)) (k : String)
    (lst : List α) (x : α) (h : alookup l k = some lst) :
    ((aset l k (lst ++ [x])).map (fun e => e.2.length)).sum
      = (l.map (fun e => e.2.length)).sum + 1 := by
  induction l with
  | nil => cases h
  | cons hd tl ih =>
    obtain ⟨k', v'⟩ := hd
    by_cases hk : k' = k
    · subst hk
      rw [alookup] at h
      rw [if_pos rfl] at h
      have hv : v' = lst := Option.some.inj h
      subst hv
      simp [aset]
      omega
    · rw [alookup, if_neg hk] at h
      simp [aset, hk, ih h]
      omega

theorem totalOrders_processRow (st : AppData × Nat) (row : List Cell) :
    totalOrders (processRow st row).1 + st.2
      = totalOrders st.1 + (processRow st row).2 := by
  obtain ⟨data, count⟩ := st
  cases hp : parseRow row with
  | none =>
    rw [processRow_of_none _ _ hp]
  | some v =>
    obtain ⟨dio, o, t⟩ := v
    unfold processRow
    rw [hp]
    dsimp only
    cases hship : strContains t "发货" with
    | true =>
      simp only [if_true]
      have hl1 : alookup (asetdefault data.shipping_orders dio []) dio
          = some ((alookup data.shipping_orders dio).getD []) := by
        rw [alookup_asetdefault]
        simp
      rw [hl1]
      simp only [Option.getD_some]
      by_cases hmem : o ∈ ((alookup data.shipping_orders dio).getD []).map orderNum
      · rw [if_pos hmem]
        simp only [totalOrders, sumLens_asetdefault]
      · rw [if_neg hmem]
        simp only [totalOrders]
        rw [sumLens_aset_append _ _ _ _ hl1, sumLens_asetdefault]
        omega
    | false =>
      simp only [Bool.false_eq_true, if_false]
      have hl1 : alookup (asetdefault data.pre_shipping_orders dio []) dio
          = some ((alookup data.pre_shipping_orders dio).getD []) := by
        rw [alookup_asetdefault]
        simp
      rw [hl1]
      simp only [Option.getD_some]
      by_cases hmem : o ∈ ((alookup data.pre_shipping_orders dio).getD []).map orderNum
      · rw [if_pos hmem]
        simp only [totalOrders, sumLens_asetdefault]
      · rw [if_neg hmem]
        simp only [totalOrders]
        rw [sumLens_aset_append _ _ _ _ hl1, sumLens_asetdefault]
        omega

theorem totalOrders_rowFold (rows : List (List Cell)) (st : AppData × Nat) :
    totalOrders (rows.foldl processRow st).1 + st.2
      = totalOrders st.1 + (rows.foldl processRow st).2 := by
  induction rows generalizing st with
  | nil => simp
  | cons row rest ih =>
    simp only [List.foldl_cons]
    have h1 := totalOrders_processRow st row
    have h2 := ih (processRow st row)
    omega

theorem totalOrders_fileFold (files : List (List (List Cell))) (st : AppData × Nat) :
    totalOrders (files.foldl (fun st2 wb => (wb.drop 1).foldl processRow st2) st).1 + st.2
      = totalOrders st.1
        + (files.foldl (fun st2 wb => (wb.drop 1).foldl processRow st2) st).2 := by
  induction files generalizing st with
  | nil => simp
  | cons wb rest ih =>
    simp only [List.foldl_cons]
    have h1 := totalOrders_rowFold (wb.drop 1) st
    have h2 := ih ((wb.drop 1).foldl processRow st)
    omega

/-- C7: the Excel import reads every workbook from its second row on,
with no use of the header row; a row with a falsy first cell, an
unparseable date or an empty order number is skipped; a surviving row is
keyed by the ISO form of its parsed date and appended to
shipping_orders when its type keyword contains 发货, else to
pre_shipping_orders, unless the order number is already present under
that date; the returned count is exactly the number of newly appended
orders. -/
theorem import_orders_from_excel_spec :
    (∀ (data : AppData) (r1 r1' : List Cell) (rs : List (List Cell))
        (fs : List (List (List Cell))),
      import_orders_from_excel ((r1 :: rs) :: fs) data
        = import_orders_from_excel ((r1' :: rs) :: fs) data) ∧
    (∀ (st : AppData × Nat) (row : List Cell),
      cellFalsy (row.headD Cell.empty) = true → processRow st row = st) ∧
    (∀ (st : AppData × Nat) (row : List Cell),
      parseIsoDate (excelDateStr (row.headD Cell.empty)) = none →
        processRow st row = st) ∧
    (∀ (st : AppData × Nat) (row : List Cell),
      rowOrder row = "" → processRow st row = st) ∧
    (∀ (row : List Cell) (dio o t : String), parseRow row = some (dio, o, t) →
      ∃ dd, parseIsoDate (excelDateStr (row.headD Cell.empty)) = some dd ∧
        dio = dd.isoFormat ∧ o = rowOrder row ∧ t = rowTyp row) ∧
    (∀ (data : AppData) (count : Nat) (row : List Cell) (dio o t : String),
      parseRow row = some (dio, o, t) →
      (o ∈ ((alookup (if strContains t "发货" then data.shipping_orders
            else data.pre_shipping_orders) dio).getD []).map orderNum →
        processRow (data, count) row = (data, count)) ∧
      (o ∉ ((alookup (if strContains t "发货" then data.shipping_orders
            else data.pre_shipping_orders) dio).getD []).map orderNum →
        (processRow (data, count) row).2 = count + 1 ∧
        alookup (if strContains t "发货"
            then (processRow (data, count) row).1.shipping_orders
            else (processRow (data, count) row).1.pre_shipping_orders) dio
          = some (((alookup (if strContains t "发货" then data.shipping_orders
              else data.pre_shipping_orders) dio).getD [])
              ++ [OrderRec.oldStr o]) ∧
        (∀ j, j ≠ dio →
          alookup (if strContains t "发货"
              then (processRow (data, count) row).1.shipping_orders
              else (processRow (data, count) row).1.pre_shipping_orders) j
            = alookup (if strContains t "发货" then data.shipping_orders
                else data.pre_shipping_orders) j) ∧
        (if strContains t "发货"
          then (processRow (data, count) row).1.pre_shipping_orders
            = data.pre_shipping_orders
          else (processRow (data, count) row).1.shipping_orders
            = data.shipping_orders))) ∧
    (∀ (files : List (List (List Cell))) (data : AppData),
      totalOrders (import_orders_from_excel files data).1
        = totalOrders data + (import_orders_from_excel files data).2) := by
  refine ⟨?_, ?_, ?_, ?_, ?_, ?_, ?_⟩
  · intro data r1 r1' rs fs
    rfl
  · intro st row h
    exact processRow_of_none st row (parseRow_none_of_falsy row h)
  · intro st row h
    exact processRow_of_none st row (parseRow_none_of_badDate row h)
  · intro st row h
    exact processRow_of_none st row (parseRow_none_of_emptyOrder row h)
  · intro row dio o t h
    exact parseRow_some_inv row dio o t h
  · intro data count row dio o t h
    cases hship : strContains t "发货" with
    | true =>
      simp only [if_true]
      have hl1 : alookup (asetdefault data.shipping_orders dio []) dio
          = some ((alookup data.shipping_orders dio).getD []) := by
        rw [alookup_asetdefault]
        simp
      constructor
      · intro hmem
        cases halo : alookup data.shipping_orders dio with
        | none =>
          rw [halo] at hmem
          simp at hmem
        | some lst =>
          rw [halo] at hmem
          simp only [Option.getD_some] at hmem
          have hset : asetdefault data.shipping_orders dio []
              = data.shipping_orders := asetdefault_of_mem _ _ _ _ halo
          unfold processRow
          rw [h]
          dsimp only
          rw [hship]
          simp only [if_true]
          rw [hset, halo]
          simp only [Option.getD_some]
          rw [if_pos hmem]
      · intro hmem
        have heq : processRow (data, count) row
            = (⟨data.pre_shipping_orders,
                aset (asetdefault data.shipping_orders dio []) dio
                  (((alookup data.shipping_orders dio).getD [])
                    ++ [OrderRec.oldStr o])⟩, count + 1) := by
          unfold processRow
          rw [h]
          dsimp only
          rw [hship]
          simp only [if_true]
          rw [hl1]
          simp only [Option.getD_some]
          rw [if_neg hmem]
        rw [heq]
        refine ⟨rfl, ?_, ?_, rfl⟩
        · simp [alookup_aset]
        · intro j hj
          have hjd : ¬ dio = j := fun hh => hj hh.symm
          simp only
          rw [alookup_aset, if_neg hjd, alookup_asetdefault, if_neg hjd]
    | false =>
      simp only [Bool.false_eq_true, if_false]
      have hl1 : alookup (asetdefault data.pre_shipping_orders dio []) dio
          = some ((alookup data.pre_shipping_orders dio).getD []) := by
        rw [alookup_asetdefault]
        simp
      constructor
      · intro hmem
        cases halo : alookup data.pre_shipping_orders dio with
        | none =>
          rw [halo] at hmem
          simp at hmem
        | some lst =>
          rw [halo] at hmem
          simp only [Option.getD_some] at hmem
          have hset : asetdefault data.pre_shipping_orders dio []
              = data.pre_shipping_orders := asetdefault_of_mem _ _ _ _ halo
          unfold processRow
          rw [h]
          dsimp only
          rw [hship]
          simp only [Bool.false_eq_true, if_false]
          rw [hset, halo]
          simp only [Option.getD_some]
          rw [if_pos hmem]
      · intro hmem
        have heq : processRow (data, count) row
            = (⟨aset (asetdefault data.pre_shipping_orders dio []) dio
                  (((alookup data.pre_shipping_orders dio).getD [])
                    ++ [OrderRec.oldStr o]),
                data.shipping_orders⟩, count + 1) := by
          unfold processRow
          rw [h]
          dsimp only
          rw [hship]
          simp only [Bool.false_eq_true, if_false]
          rw [hl1]
          simp only [Option.getD_some]
          rw [if_neg hmem]
        rw [heq]
        refine ⟨rfl, ?_, ?_, rfl⟩
        · simp [alookup_aset]
        · intro j hj
          have hjd : ¬ dio = j := fun hh => hj hh.symm
          simp only
          rw [alookup_aset, if_neg hjd, alookup_asetdefault, if_neg hjd]
  · intro files data
    have h := totalOrders_fileFold files (data, 0)
    simpa [import_orders_from_excel] using h

theorem import_orders_from_excel_spec_witness :
    processRow (⟨[], []⟩, 0) [Cell.empty, Cell.str "X"] = (⟨[], []⟩, 0) ∧
    (processRow (⟨[], []⟩, 0) [Cell.str "2024-01-02", Cell.str "A", Cell.str "预"]).2
      = 1 ∧
    alookup (processRow (⟨[], []⟩, 0)
        [Cell.str "2024-01-02", Cell.str "A", Cell.str "预"]).1.pre_shipping_orders
        "2024-01-02"
      = some [OrderRec.oldStr "A"] := by
  refine ⟨import_orders_from_excel_spec.2.1 (⟨[], []⟩, 0) _ (by decide), ?_, ?_⟩
  · exact (((import_orders_from_excel_spec.2.2.2.2.2.1 ⟨[], []⟩ 0
      [Cell.str "2024-01-02", Cell.str "A", Cell.str "预"]
      "2024-01-02" "A" "预" (by decide)).2 (by decide)).1)
  · have h := (((import_orders_from_excel_spec.2.2.2.2.2.1 ⟨[], []⟩ 0
      [Cell.str "2024-01-02", Cell.str "A", Cell.str "预"]
      "2024-01-02" "A" "预" (by decide)).2 (by decide)).2.1)
    simpa using h

/-! ## Helper lemmas for the auto-sync -/

theorem syncStep_eq_keep (acc : List OrderRec × List OrderRec × Nat) (r : OrderRec)
    (h : isDoneRec r = false) :
    syncStep acc r = (acc.1, acc.2.1 ++ [r], acc.2.2) := by
  cases r with
  | oldStr s => rfl
  | mk o rem st dn =>
    have hne : st.getD ORDER_STATUS_PENDING ≠ ORDER_STATUS_DONE := by
      simpa [isDoneRec] using h
    unfold syncStep
    dsimp only
    by_cases hpa : st.getD ORDER_STATUS_PENDING = ORDER_STATUS_PAUSED
    · rw [if_pos hpa]
    · rw [if_neg hpa, if_pos hne]

theorem syncStep_eq_done_dup (acc : List OrderRec × List OrderRec × Nat)
    (o rem : String) (st : Option String) (dn : Option Bool)
    (hst : st.getD ORDER_STATUS_PENDING = ORDER_STATUS_DONE)
    (hdup : acc.1.any (fun so => orderNum so == o) = true) :
    syncStep acc (OrderRec.mk o rem st dn) = acc := by
  have hpa : st.getD ORDER_STATUS_PENDING ≠ ORDER_STATUS_PAUSED := by
    rw [hst]
    decide
  unfold syncStep
  dsimp only
  rw [if_neg hpa, if_neg (fun hcon => hcon hst), if_pos hdup]

theorem syncStep_eq_done_new (acc : List OrderRec × List OrderRec × Nat)
    (o rem : String) (st : Option String) (dn : Option Bool)
    (hst : st.getD ORDER_STATUS_PENDING = ORDER_STATUS_DONE)
    (hdup : acc.1.any (fun so => orderNum so == o) = false) :
    syncStep acc (OrderRec.mk o rem st dn)
      = (acc.1 ++ [OrderRec.mk o (autoRemark rem) none none], acc.2.1, acc.2.2 + 1) := by
  have hpa : st.getD ORDER_STATUS_PENDING ≠ ORDER_STATUS_PAUSED := by
    rw [hst]
    decide
  unfold syncStep
  dsimp only
  rw [if_neg hpa, if_neg (fun hcon => hcon hst), hdup]
  simp only [Bool.false_eq_true, if_false]

theorem syncFold_kept (recs : List OrderRec) (ship kept : List OrderRec) (c : Nat) :
    (recs.foldl syncStep (ship, kept, c)).2.1
      = kept ++ recs.filter (fun r => !isDoneRec r) := by
  induction recs generalizing ship kept c with
  | nil => simp
  | cons r rest ih =>
    simp only [List.foldl_cons]
    cases hdr : isDoneRec r with
    | false =>
      rw [syncStep_eq_keep (ship, kept, c) r hdr, ih]
      simp [List.filter_cons, hdr]
    | true =>
      cases r with
      | oldStr s => simp [isDoneRec] at hdr
      | mk o rem st dn =>
        have hst : st.getD ORDER_STATUS_PENDING = ORDER_STATUS_DONE := by
          simpa [isDoneRec] using hdr
        by_cases hdup : ship.any (fun so => orderNum so == o) = true
        · rw [syncStep_eq_done_dup (ship, kept, c) o rem st dn hst hdup, ih]
          simp [List.filter_cons, hdr]
        · rw [syncStep_eq_done_new (ship, kept, c) o rem st dn hst
            (by simpa using hdup), ih]
          simp [List.filter_cons, hdr]

theorem syncStep_ship_sub (acc : List OrderRec × List OrderRec × Nat) (r : OrderRec)
    (y : OrderRec) (hy : y ∈ acc.1) : y ∈ (syncStep acc r).1 := by
  cases hdr : isDoneRec r with
  | false =>
    rw [syncStep_eq_keep acc r hdr]
    exact hy
  | true =>
    cases r with
    | oldStr s => simp [isDoneRec] at hdr
    | mk o rem st dn =>
      have hst : st.getD ORDER_STATUS_PENDING = ORDER_STATUS_DONE := by
        simpa [isDoneRec] using hdr
      by_cases hdup : acc.1.any (fun so => orderNum so == o) = true
      · rw [syncStep_eq_done_dup acc o rem st dn hst hdup]
        exact hy
      · rw [syncStep_eq_done_new acc o rem st dn hst (by simpa using hdup)]
        exact List.mem_append_left _ hy

theorem syncFold_ship_mono (recs : List OrderRec) (ship kept : List OrderRec) (c : Nat)
    (y : OrderRec) (hy : y ∈ ship) :
    y ∈ (recs.foldl syncStep (ship, kept, c)).1 := by
  induction recs generalizing ship kept c with
  | nil => exact hy
  | cons r rest ih =>
    simp only [List.foldl_cons]
    have h1 : y ∈ (syncStep (ship, kept, c) r).1 :=
      syncStep_ship_sub (ship, kept, c) r y hy
    exact ih (syncStep (ship, kept, c) r).1 (syncStep (ship, kept, c) r).2.1
      (syncStep (ship, kept, c) r).2.2 h1

theorem syncStep_ship_char (acc : List OrderRec × List OrderRec × Nat) (r : OrderRec) :
    (syncStep acc r).1 = acc.1 ∨
    ∃ o rem st dn, r = OrderRec.mk o rem st dn ∧
      st.getD ORDER_STATUS_PENDING = ORDER_STATUS_DONE ∧
      (syncStep acc r).1 = acc.1 ++ [OrderRec.mk o (autoRemark rem) none none] := by
  cases hdr : isDoneRec r with
  | false =>
    left
    rw [syncStep_eq_keep acc r hdr]
  | true =>
    cases r with
    | oldStr s => simp [isDoneRec] at hdr
    | mk o rem st dn =>
      have hst : st.getD ORDER_STATUS_PENDING = ORDER_STATUS_DONE := by
        simpa [isDoneRec] using hdr
      by_cases hdup : acc.1.any (fun so => orderNum so == o) = true
      · left
        rw [syncStep_eq_done_dup acc o rem st dn hst hdup]
      · right
        refine ⟨o, rem, st, dn, rfl, hst, ?_⟩
        rw [syncStep_eq_done_new acc o rem st dn hst (by simpa using hdup)]

theorem syncFold_ship_mem (recs : List OrderRec) (ship kept : List OrderRec) (c : Nat)
    (x : OrderRec) (hx : x ∈ (recs.foldl syncStep (ship, kept, c)).1) :
    x ∈ ship ∨ ∃ o rem st dn, OrderRec.mk o rem st dn ∈ recs ∧
      st.getD ORDER_STATUS_PENDING = ORDER_STATUS_DONE ∧
      x = OrderRec.mk o (autoRemark rem) none none := by
  induction recs generalizing ship kept c with
  | nil => exact Or.inl hx
  | cons r rest ih =>
    simp only [List.foldl_cons] at hx
    have ihx := ih (syncStep (ship, kept, c) r).1 (syncStep (ship, kept, c) r).2.1
      (syncStep (ship, kept, c) r).2.2 hx
    rcases syncStep_ship_char (ship, kept, c) r with hc | ⟨o, rem, st, dn, hr, hst, hc⟩
    · rw [hc] at ihx
      rcases ihx with h1 | ⟨o, rem, st, dn, hm, hst, hxx⟩
      · exact Or.inl h1
      · exact Or.inr ⟨o, rem, st, dn, List.mem_cons_of_mem _ hm, hst, hxx⟩
    · rw [hc] at ihx
      rcases ihx with h1 | ⟨o2, rem2, st2, dn2, hm, hst2, hxx⟩
      · rcases List.mem_append.mp h1 with h2 | h2
        · exact Or.inl h2
        · have hx2 : x = OrderRec.mk o (autoRemark rem) none none := by
            simpa using h2
          refine Or.inr ⟨o, rem, st, dn, ?_, hst, hx2⟩
          rw [hr]
          exact List.mem_cons_self _ _
      · exact Or.inr ⟨o2, rem2, st2, dn2, List.mem_cons_of_mem _ hm, hst2, hxx⟩

theorem syncFold_done_mem (recs : List OrderRec) (ship kept : List OrderRec) (c : Nat)
    (o rem : String) (stt : Option String) (dn : Option Bool)
    (hm : OrderRec.mk o rem stt dn ∈ recs)
    (hst : stt.getD ORDER_STATUS_PENDING = ORDER_STATUS_DONE) :
    ∃ y ∈ (recs.foldl syncStep (ship, kept, c)).1, orderNum y = o := by
  induction recs generalizing ship kept c with
  | nil => cases hm
  | cons r rest ih =>
    simp only [List.foldl_cons]
    rcases List.mem_cons.mp hm with hhead | htail
    · by_cases hdup : ship.any (fun so => orderNum so == o) = true
      · obtain ⟨y, hy, hbeq⟩ := List.any_eq_true.mp hdup
        have hnum : orderNum y = o := by simpa using hbeq
        refine ⟨y, ?_, hnum⟩
        exact syncFold_ship_mono rest _ _ _ y (syncStep_ship_sub (ship, kept, c) r y hy)
      · have heq : syncStep (ship, kept, c) r
            = (ship ++ [OrderRec.mk o (autoRemark rem) none none], kept, c + 1) := by
          rw [← hhead]
          exact syncStep_eq_done_new (ship, kept, c) o rem stt dn hst (by simpa using hdup)
        rw [heq]
        refine ⟨OrderRec.mk o (autoRemark rem) none none, ?_, rfl⟩
        exact syncFold_ship_mono rest _ _ _ _ (List.mem_append_right _ (by simp))
    · exact ih (syncStep (ship, kept, c) r).1 (syncStep (ship, kept, c) r).2.1
        (syncStep (ship, kept, c) r).2.2 htail

theorem syncDate_eq_tbd (today : Date) (st : AppData × List String × Nat)
    (e : String × List OrderRec) (h : e.1 = "TBD") : syncDate today st e = st := by
  unfold syncDate
  rw [if_pos h]

theorem syncDate_eq_baddate (today : Date) (st : AppData × List String × Nat)
    (e : String × List OrderRec) (h : parseIsoDate e.1 = none) :
    syncDate today st e = st := by
  unfold syncDate
  by_cases htbd : e.1 = "TBD"
  · rw [if_pos htbd]
  · rw [if_neg htbd, h]

theorem syncDate_eq_future (today : Date) (st : AppData × List String × Nat)
    (e : String × List OrderRec) (dd : Date) (htbd : e.1 ≠ "TBD")
    (hp : parseIsoDate e.1 = some dd) (hlt : dateLt today dd = true) :
    syncDate today st e = st := by
  unfold syncDate
  rw [if_neg htbd, hp]
  dsimp only
  rw [hlt]
  simp

theorem syncDate_eq_empty (today : Date) (st : AppData × List String × Nat)
    (e : String × List OrderRec) (dd : Date) (htbd : e.1 ≠ "TBD")
    (hp : parseIsoDate e.1 = some dd) (hlt : dateLt today dd = false)
    (hrecs : e.2 = []) :
    syncDate today st e = (st.1, st.2.1 ++ [e.1], st.2.2) := by
  unfold syncDate
  rw [if_neg htbd, hp]
  dsimp only
  rw [hlt]
  simp only [Bool.false_eq_true, if_false]
  rw [if_pos hrecs]

theorem syncDate_eq_main (today : Date) (st : AppData × List String × Nat)
    (e : String × List OrderRec) (dd : Date) (htbd : e.1 ≠ "TBD")
    (hp : parseIsoDate e.1 = some dd) (hlt : dateLt today dd = false)
    (hrecs : e.2 ≠ []) :
    syncDate today st e =
      (⟨(if (e.2.foldl syncStep
            ((alookup st.1.shipping_orders e.1).getD [], [], 0)).2.1 = []
          then st.1.pre_shipping_orders
          else aset st.1.pre_shipping_orders e.1
            (e.2.foldl syncStep
              ((alookup st.1.shipping_orders e.1).getD [], [], 0)).2.1),
        aset (asetdefault st.1.shipping_orders e.1 []) e.1
          (e.2.foldl syncStep
            ((alookup st.1.shipping_orders e.1).getD [], [], 0)).1⟩,
       (if (e.2.foldl syncStep
            ((alookup st.1.shipping_orders e.1).getD [], [], 0)).2.1 = []
        then st.2.1 ++ [e.1] else st.2.1),
       st.2.2 + (e.2.foldl syncStep
         ((alookup st.1.shipping_orders e.1).getD [], [], 0)).2.2) := by
  unfold syncDate
  rw [if_neg htbd, hp]
  dsimp only
  rw [hlt]
  simp only [Bool.false_eq_true, if_false]
  rw [if_neg hrecs]

theorem syncDate_ship_char (today : Date) (st : AppData × List String × Nat)
    (e : String × List OrderRec) (k : String) :
    alookup (syncDate today st e).1.shipping_orders k
      = alookup st.1.shipping_orders k ∨
    (k = e.1 ∧ e.1 ≠ "TBD" ∧
      ∃ dd, parseIsoDate e.1 = some dd ∧ dateLt today dd = false ∧
      alookup (syncDate today st e).1.shipping_orders k
        = some ((e.2.foldl syncStep
            ((alookup st.1.shipping_orders e.1).getD [], [], 0)).1)) := by
  by_cases htbd : e.1 = "TBD"
  · rw [syncDate_eq_tbd today st e htbd]
    exact Or.inl rfl
  · cases hp : parseIsoDate e.1 with
    | none =>
      rw [syncDate_eq_baddate today st e hp]
      exact Or.inl rfl
    | some dd =>
      cases hlt : dateLt today dd with
      | true =>
        rw [syncDate_eq_future today st e dd htbd hp hlt]
        exact Or.inl rfl
      | false =>
        by_cases hrecs : e.2 = []
        · rw [syncDate_eq_empty today st e dd htbd hp hlt hrecs]
          exact Or.inl rfl
        · rw [syncDate_eq_main today st e dd htbd hp hlt hrecs]
          by_cases hk : k = e.1
          · subst hk
            right
            refine ⟨rfl, htbd, dd, rfl, hlt, ?_⟩
            dsimp only
            rw [alookup_aset, if_pos rfl]
          · left
            dsimp only
            have hke : ¬ e.1 = k := fun hh => hk hh.symm
            rw [alookup_aset, if_neg hke, alookup_asetdefault, if_neg hke]

theorem syncDateFold_ship_mem (today : Date) (es : List (String × List OrderRec))
    (st : AppData × List String × Nat) (k : String) (x : OrderRec)
    (hx : x ∈ (alookup (es.foldl (syncDate today) st).1.shipping_orders k).getD []) :
    x ∈ (alookup st.1.shipping_orders k).getD [] ∨
    ∃ recs, (k, recs) ∈ es ∧ k ≠ "TBD" ∧
      ∃ dd, parseIsoDate k = some dd ∧ dateLt today dd = false ∧
      ∃ o rem stt dn, OrderRec.mk o rem stt dn ∈ recs ∧
        stt.getD ORDER_STATUS_PENDING = ORDER_STATUS_DONE ∧
        x = OrderRec.mk o (autoRemark rem) none none := by
  induction es generalizing st with
  | nil => exact Or.inl hx
  | cons e rest ih =>
    simp only [List.foldl_cons] at hx
    have ihx := ih (syncDate today st e) hx
    rcases syncDate_ship_char today st e k with hc | ⟨hk, htbd, dd, hp, hlt, hc⟩
    · rcases ihx with h1 | ⟨recs, hm, h2⟩
      · rw [hc] at h1
        exact Or.inl h1
      · exact Or.inr ⟨recs, List.mem_cons_of_mem _ hm, h2⟩
    · rcases ihx with h1 | ⟨recs, hm, h2⟩
      · rw [hc] at h1
        simp only [Option.getD_some] at h1
        rcases syncFold_ship_mem e.2 _ _ _ x h1 with h3 |
            ⟨o, rem, stt, dn, hmm, hst, hxx⟩
        · subst hk
          exact Or.inl h3
        · subst hk
          refine Or.inr ⟨e.2, ?_, htbd, dd, hp, hlt, o, rem, stt, dn, hmm, hst, hxx⟩
          exact List.mem_cons_self e rest
      · exact Or.inr ⟨recs, List.mem_cons_of_mem _ hm, h2⟩

/-- C1: a record found in shipping_orders after the auto-sync that was
not already there was migrated from that same date key of
pre_shipping_orders, and this happens only for a dict-format record
whose status field is done under a non-TBD key that parses as an ISO
date not after today; old-format strings and records with status
pending, making or paused are never migrated, nor is anything under
TBD, a future date or an unparseable date. -/
theorem auto_sync_only_done_due (today : Date) (data : AppData) (k : String)
    (x : OrderRec)
    (hx : x ∈ (alookup (auto_sync_pre_to_shipping today data).1.shipping_orders
      k).getD []) :
    x ∈ (alookup data.shipping_orders k).getD [] ∨
    (k ≠ "TBD" ∧ ∃ dd, parseIsoDate k = some dd ∧ dateLt today dd = false ∧
     ∃ recs, (k, recs) ∈ data.pre_shipping_orders ∧
     ∃ o rem st dn, OrderRec.mk o rem st dn ∈ recs ∧
       st.getD ORDER_STATUS_PENDING = ORDER_STATUS_DONE ∧
       x = OrderRec.mk o (autoRemark rem) none none) := by
  have hx' : x ∈ (alookup (data.pre_shipping_orders.foldl (syncDate today)
      (data, [], 0)).1.shipping_orders k).getD [] := hx
  rcases syncDateFold_ship_mem today data.pre_shipping_orders (data, [], 0) k x hx' with
    h | ⟨recs, hm, htbd, dd, hp, hlt, o, rem, stt, dn, hmm, hst, hxx⟩
  · exact Or.inl h
  · exact Or.inr ⟨htbd, dd, hp, hlt, recs, hm, o, rem, stt, dn, hmm, hst, hxx⟩

theorem auto_sync_only_done_due_witness :
    OrderRec.mk "A" "[预备订单自动同步]" none none
      ∈ (alookup ([] : List (String × List OrderRec)) "2024-01-01").getD [] ∨
    ("2024-01-01" ≠ "TBD" ∧
     ∃ dd, parseIsoDate "2024-01-01" = some dd ∧ dateLt ⟨2024, 6, 1⟩ dd = false ∧
     ∃ recs, ("2024-01-01", recs)
        ∈ [("2024-01-01", [OrderRec.mk "A" "" (some "done") none])] ∧
     ∃ o rem st dn, OrderRec.mk o rem st dn ∈ recs ∧
       st.getD ORDER_STATUS_PENDING = ORDER_STATUS_DONE ∧
       OrderRec.mk "A" "[预备订单自动同步]" none none
         = OrderRec.mk o (autoRemark rem) none none) :=
  auto_sync_only_done_due ⟨2024, 6, 1⟩
    ⟨[("2024-01-01", [OrderRec.mk "A" "" (some "done") none])], []⟩
    "2024-01-01" (OrderRec.mk "A" "[预备订单自动同步]" none none) (by decide)

theorem syncDate_frame (today : Date) (st : AppData × List String × Nat)
    (e : String × List OrderRec) (d : String) (hne : e.1 ≠ d) :
    alookup (syncDate today st e).1.pre_shipping_orders d
      = alookup st.1.pre_shipping_orders d ∧
    (d ∈ (syncDate today st e).2.1 ↔ d ∈ st.2.1) ∧
    alookup (syncDate today st e).1.shipping_orders d
      = alookup st.1.shipping_orders d := by
  have hdne : d ≠ e.1 := fun h => hne h.symm
  by_cases htbd : e.1 = "TBD"
  · rw [syncDate_eq_tbd today st e htbd]
    exact ⟨rfl, Iff.rfl, rfl⟩
  · cases hp : parseIsoDate e.1 with
    | none =>
      rw [syncDate_eq_baddate today st e hp]
      exact ⟨rfl, Iff.rfl, rfl⟩
    | some dd =>
      cases hlt : dateLt today dd with
      | true =>
        rw [syncDate_eq_future today st e dd htbd hp hlt]
        exact ⟨rfl, Iff.rfl, rfl⟩
      | false =>
        by_cases hrecs : e.2 = []
        · rw [syncDate_eq_empty today st e dd htbd hp hlt hrecs]
          refine ⟨rfl, ?_, rfl⟩
          simp [hdne]
        · rw [syncDate_eq_main today st e dd htbd hp hlt hrecs]
          dsimp only
          refine ⟨?_, ?_, ?_⟩
          · by_cases hk : (e.2.foldl syncStep
                ((alookup st.1.shipping_orders e.1).getD [], [], 0)).2.1 = []
            · simp only [if_pos hk]
            · simp only [if_neg hk]
              rw [alookup_aset, if_neg hne]
          · by_cases hk : (e.2.foldl syncStep
                ((alookup st.1.shipping_orders e.1).getD [], [], 0)).2.1 = []
            · simp only [if_pos hk]
              simp [hdne]
            · simp only [if_neg hk]
          · rw [alookup_aset, if_neg hne, alookup_asetdefault, if_neg hne]

theorem syncDateFold_frame (today : Date) (es : List (String × List OrderRec))
    (st : AppData × List String × Nat) (d : String) :
    d ∉ es.map Prod.fst →
    alookup (es.foldl (syncDate today) st).1.pre_shipping_orders d
      = alookup st.1.pre_shipping_orders d ∧
    (d ∈ (es.foldl (syncDate today) st).2.1 ↔ d ∈ st.2.1) ∧
    alookup (es.foldl (syncDate today) st).1.shipping_orders d
      = alookup st.1.shipping_orders d := by
  induction es generalizing st with
  | nil =>
    intro _
    exact ⟨rfl, Iff.rfl, rfl⟩
  | cons e rest ih =>
    intro hkeys
    simp only [List.map_cons, List.mem_cons] at hkeys
    push_neg at hkeys
    have hne : e.1 ≠ d := fun h => hkeys.1 h.symm
    have hstep := syncDate_frame today st e d hne
    have hrest := ih (syncDate today st e) hkeys.2
    simp only [List.foldl_cons]
    exact ⟨hrest.1.trans hstep.1, hrest.2.1.trans hstep.2.1, hrest.2.2.trans hstep.2.2⟩

theorem syncDate_ship_mono_k (today : Date) (st : AppData × List String × Nat)
    (e : String × List OrderRec) (k : String) (y : OrderRec)
    (hy : y ∈ (alookup st.1.shipping_orders k).getD []) :
    y ∈ (alookup (syncDate today st e).1.shipping_orders k).getD [] := by
  rcases syncDate_ship_char today st e k with hc | ⟨hk, htbd, dd, hp, hlt, hc⟩
  · rw [hc]
    exact hy
  · rw [hc]
    simp only [Option.getD_some]
    subst hk
    exact syncFold_ship_mono e.2 _ _ _ y hy

theorem syncDateFold_ship_mono_k (today : Date) (es : List (String × List OrderRec))
    (st : AppData × List String × Nat) (k : String) (y : OrderRec)
    (hy : y ∈ (alookup st.1.shipping_orders k).getD []) :
    y ∈ (alookup (es.foldl (syncDate today) st).1.shipping_orders k).getD [] := by
  induction es generalizing st with
  | nil => exact hy
  | cons e rest ih =>
    simp only [List.foldl_cons]
    exact ih (syncDate today st e) (syncDate_ship_mono_k today st e k y hy)

theorem syncDate_entry (today : Date) (st : AppData × List String × Nat)
    (d : String) (recs : List OrderRec) (dd : Date)
    (hdate : parseIsoDate d = some dd) (hdue : dateLt today dd = false) :
    ((recs.filter (fun r => !isDoneRec r) = [] →
        d ∈ (syncDate today st (d, recs)).2.1) ∧
     (recs.filter (fun r => !isDoneRec r) ≠ [] →
        alookup (syncDate today st (d, recs)).1.pre_shipping_orders d
          = some (recs.filter (fun r => !isDoneRec r)) ∧
        ((d ∈ (syncDate today st (d, recs)).2.1) ↔ d ∈ st.2.1))) ∧
    (∀ o rem stt dn, OrderRec.mk o rem stt dn ∈ recs →
      stt.getD ORDER_STATUS_PENDING = ORDER_STATUS_DONE →
      ∃ y ∈ (alookup (syncDate today st (d, recs)).1.shipping_orders d).getD [],
        orderNum y = o) := by
  have htbd : d ≠ "TBD" := by
    intro h
    rw [h] at hdate
    have hnone : parseIsoDate "TBD" = none := by rfl
    rw [hnone] at hdate
    cases hdate
  by_cases hrecs : recs = []
  · subst hrecs
    rw [syncDate_eq_empty today st (d, []) dd htbd hdate hdue rfl]
    refine ⟨⟨fun _ => ?_, fun hk => absurd rfl hk⟩, ?_⟩
    · simp
    · intro o rem stt dn hm
      cases hm
  · rw [syncDate_eq_main today st (d, recs) dd htbd hdate hdue hrecs]
    dsimp only
    have hkept : (recs.foldl syncStep
        ((alookup st.1.shipping_orders d).getD [], [], 0)).2.1
        = recs.filter (fun r => !isDoneRec r) := by
      rw [syncFold_kept]
      simp
    refine ⟨⟨?_, ?_⟩, ?_⟩
    · intro hfil
      have hkeq : (recs.foldl syncStep
          ((alookup st.1.shipping_orders d).getD [], [], 0)).2.1 = [] := by
        rw [hkept]
        exact hfil
      simp only [if_pos hkeq]
      simp
    · intro hfil
      have hkne : (recs.foldl syncStep
          ((alookup st.1.shipping_orders d).getD [], [], 0)).2.1 ≠ [] := by
        rw [hkept]
        exact hfil
      simp only [if_neg hkne]
      constructor
      · rw [alookup_aset, if_pos rfl, hkept]
      · trivial
    · intro o rem stt dn hm hst
      rw [alookup_aset, if_pos rfl]
      simp only [Option.getD_some]
      exact syncFold_done_mem recs _ _ _ o rem stt dn hm hst

theorem alookup_isSome_of_mem_keys {α : Type} (l : List (String × α)) (k : String)
    (h : k ∈ l.map Prod.fst) : (alookup l k).isSome = true := by
  induction l with
  | nil => simp at h
  | cons hd tl ih =>
    obtain ⟨k', v'⟩ := hd
    simp only [List.map_cons, List.mem_cons] at h
    by_cases hk : k' = k
    · simp [alookup, hk]
    · rcases h with h1 | h2
      · exact absurd h1.symm hk
      · simp [alookup, hk, ih h2]

theorem nodup_keys_aset {α : Type} (l : List (String × α)) (k : String) (v : α)
    (h : (l.map Prod.fst).Nodup) : ((aset l k v).map Prod.fst).Nodup := by
  rw [keys_aset]
  by_cases hs : (alookup l k).isSome = true
  · simp only [hs, if_true]
    exact h
  · simp only [hs, Bool.false_eq_true, if_false]
    rw [List.nodup_append]
    refine ⟨h, List.nodup_singleton k, ?_⟩
    intro a ha hb
    rw [List.mem_singleton] at hb
    subst hb
    exact hs (alookup_isSome_of_mem_keys l a ha)

theorem syncDate_pre_keys_nodup (today : Date) (st : AppData × List String × Nat)
    (e : String × List OrderRec)
    (h : (st.1.pre_shipping_orders.map Prod.fst).Nodup) :
    ((syncDate today st e).1.pre_shipping_orders.map Prod.fst).Nodup := by
  by_cases htbd : e.1 = "TBD"
  · rw [syncDate_eq_tbd today st e htbd]
    exact h
  · cases hp : parseIsoDate e.1 with
    | none =>
      rw [syncDate_eq_baddate today st e hp]
      exact h
    | some dd =>
      cases hlt : dateLt today dd with
      | true =>
        rw [syncDate_eq_future today st e dd htbd hp hlt]
        exact h
      | false =>
        by_cases hrecs : e.2 = []
        · rw [syncDate_eq_empty today st e dd htbd hp hlt hrecs]
          exact h
        · rw [syncDate_eq_main today st e dd htbd hp hlt hrecs]
          dsimp only
          by_cases hk : (e.2.foldl syncStep
              ((alookup st.1.shipping_orders e.1).getD [], [], 0)).2.1 = []
          · simp only [if_pos hk]
            exact h
          · simp only [if_neg hk]
            exact nodup_keys_aset _ _ _ h

theorem syncDateFold_pre_keys_nodup (today : Date) (es : List (String × List OrderRec))
    (st : AppData × List String × Nat)
    (h : (st.1.pre_shipping_orders.map Prod.fst).Nodup) :
    (((es.foldl (syncDate today) st).1.pre_shipping_orders.map Prod.fst)).Nodup := by
  induction es generalizing st with
  | nil => exact h
  | cons e rest ih =>
    simp only [List.foldl_cons]
    exact ih (syncDate today st e) (syncDate_pre_keys_nodup today st e h)

theorem keys_aerase_sublist {α : Type} (l : List (String × α)) (k : String) :
    ((aerase l k).map Prod.fst).Sublist (l.map Prod.fst) := by
  induction l with
  | nil => simp [aerase]
  | cons hd tl ih =>
    obtain ⟨k', v'⟩ := hd
    by_cases hk : k' = k
    · simp only [aerase, if_pos hk, List.map_cons]
      exact List.Sublist.cons _ (List.Sublist.refl _)
    · simp only [aerase, if_neg hk, List.map_cons]
      exact List.Sublist.cons₂ _ ih

theorem aeraseFold_preserves_none {α : Type} (rm : List String)
    (l : List (String × α)) (d : String) (h : alookup l d = none) :
    alookup (rm.foldl aerase l) d = none := by
  induction rm generalizing l with
  | nil => exact h
  | cons r rest ih =>
    simp only [List.foldl_cons]
    exact ih _ (aerase_alookup_none l r d h)

theorem aeraseFold_none {α : Type} (rm : List String) (l : List (String × α))
    (d : String) :
    d ∈ rm → (l.map Prod.fst).Nodup → alookup (rm.foldl aerase l) d = none := by
  induction rm generalizing l with
  | nil =>
    intro hd _
    cases hd
  | cons r rest ih =>
    intro hd hnd
    simp only [List.foldl_cons]
    rcases List.mem_cons.mp hd with h1 | h2
    · subst h1
      exact aeraseFold_preserves_none rest _ d (alookup_aerase_self l d hnd)
    · exact ih _ h2 (List.Nodup.sublist (keys_aerase_sublist l r) hnd)

theorem aeraseFold_ne {α : Type} (rm : List String) (l : List (String × α))
    (d : String) :
    d ∉ rm → alookup (rm.foldl aerase l) d = alookup l d := by
  induction rm generalizing l with
  | nil =>
    intro _
    rfl
  | cons r rest ih =>
    intro hd
    simp only [List.mem_cons] at hd
    push_neg at hd
    simp only [List.foldl_cons]
    rw [ih _ hd.2, alookup_aerase_ne l r d (fun h => hd.1 h.symm)]

theorem alookup_some_mem {α : Type} (l : List (String × α)) (k : String) (v : α)
    (h : alookup l k = some v) : (k, v) ∈ l := by
  induction l with
  | nil => cases h
  | cons hd tl ih =>
    obtain ⟨k', v'⟩ := hd
    by_cases hk : k' = k
    · rw [alookup, if_pos hk] at h
      have hv := Option.some.inj h
      subst hk
      subst hv
      exact List.mem_cons_self _ _
    · rw [alookup, if_neg hk] at h
      exact List.mem_cons_of_mem _ (ih h)

theorem syncDateFold_entry (today : Date) (es : List (String × List OrderRec))
    (st : AppData × List String × Nat) (d : String) (recs : List OrderRec) (dd : Date)
    (hdate : parseIsoDate d = some dd) (hdue : dateLt today dd = false) :
    (d, recs) ∈ es → (es.map Prod.fst).Nodup → d ∉ st.2.1 →
    ((recs.filter (fun r => !isDoneRec r) = [] →
        d ∈ (es.foldl (syncDate today) st).2.1) ∧
     (recs.filter (fun r => !isDoneRec r) ≠ [] →
        alookup (es.foldl (syncDate today) st).1.pre_shipping_orders d
          = some (recs.filter (fun r => !isDoneRec r)) ∧
        d ∉ (es.foldl (syncDate today) st).2.1) ∧
     (∀ o rem stt dn, OrderRec.mk o rem stt dn ∈ recs →
        stt.getD ORDER_STATUS_PENDING = ORDER_STATUS_DONE →
        ∃ y ∈ (alookup (es.foldl (syncDate today) st).1.shipping_orders d).getD [],
          orderNum y = o)) := by
  induction es generalizing st with
  | nil =>
    intro hm _ _
    cases hm
  | cons e rest ih =>
    intro hm hnd hto
    simp only [List.map_cons, List.nodup_cons] at hnd
    simp only [List.foldl_cons]
    rcases List.mem_cons.mp hm with hhead | htail
    · have hee : e = (d, recs) := hhead.symm
      subst hee
      have hentry := syncDate_entry today st d recs dd hdate hdue
      have hdrest : d ∉ rest.map Prod.fst := hnd.1
      have hframe := syncDateFold_frame today rest (syncDate today st (d, recs)) d hdrest
      refine ⟨?_, ?_, ?_⟩
      · intro hfil
        exact hframe.2.1.mpr (hentry.1.1 hfil)
      · intro hfil
        have h1 := hentry.1.2 hfil
        refine ⟨?_, ?_⟩
        · rw [hframe.1]
          exact h1.1
        · intro hcon
          exact hto (h1.2.mp (hframe.2.1.mp hcon))
      · intro o rem stt dn hmm hst
        have h2 := hentry.2 o rem stt dn hmm hst
        rw [hframe.2.2]
        exact h2
    · have hkeys : d ∈ rest.map Prod.fst := by
        have : (d, recs).1 ∈ rest.map Prod.fst := List.mem_map_of_mem Prod.fst htail
        exact this
      have hefst : e.1 ≠ d := fun h => hnd.1 (h ▸ hkeys)
      have hto' : d ∉ (syncDate today st e).2.1 := by
        intro hcon
        exact hto ((syncDate_frame today st e d hefst).2.1.mp hcon)
      exact ih (syncDate today st e) htail hnd.2 hto'

/-- C2 (amended): for a done-status record under a parseable date key
not after today (keys unique, as Python dict keys are), the auto-sync
removes every done record from that date's pre_shipping_orders list —
exactly the non-done records remain, in order, and the date key is
deleted when none remain — and guarantees that a record bearing the done
order number is present in shipping_orders for that date, while every
record already in that shipping list is kept; the remark-tagged copy
itself is appended only when no record with that order number was
already present (see the counterexample). -/
theorem auto_sync_done_effect (today : Date) (data : AppData) (d : String)
    (recs : List OrderRec) (dd : Date)
    (hnd : (data.pre_shipping_orders.map Prod.fst).Nodup)
    (hlook : alookup data.pre_shipping_orders d = some recs)
    (hdate : parseIsoDate d = some dd)
    (hdue : dateLt today dd = false) :
    alookup (auto_sync_pre_to_shipping today data).1.pre_shipping_orders d
      = (if recs.filter (fun r => !isDoneRec r) = [] then none
         else some (recs.filter (fun r => !isDoneRec r))) ∧
    (∀ o rem st dn, OrderRec.mk o rem st dn ∈ recs →
      st.getD ORDER_STATUS_PENDING = ORDER_STATUS_DONE →
      ∃ y ∈ (alookup (auto_sync_pre_to_shipping today data).1.shipping_orders
        d).getD [], orderNum y = o) ∧
    (∀ y ∈ (alookup data.shipping_orders d).getD [],
      y ∈ (alookup (auto_sync_pre_to_shipping today data).1.shipping_orders
        d).getD []) := by
  have hmem : (d, recs) ∈ data.pre_shipping_orders := alookup_some_mem _ _ _ hlook
  have hfold := syncDateFold_entry today data.pre_shipping_orders (data, [], 0) d recs
    dd hdate hdue hmem hnd (by simp)
  have hndres : (((data.pre_shipping_orders.foldl (syncDate today)
      (data, [], 0)).1.pre_shipping_orders.map Prod.fst)).Nodup :=
    syncDateFold_pre_keys_nodup today data.pre_shipping_orders (data, [], 0) hnd
  refine ⟨?_, ?_, ?_⟩
  · show alookup (((data.pre_shipping_orders.foldl (syncDate today)
        (data, [], 0)).2.1).foldl aerase
        ((data.pre_shipping_orders.foldl (syncDate today)
          (data, [], 0)).1.pre_shipping_orders)) d = _
    by_cases hfil : recs.filter (fun r => !isDoneRec r) = []
    · rw [if_pos hfil]
      exact aeraseFold_none _ _ d (hfold.1 hfil) hndres
    · rw [if_neg hfil]
      have h1 := hfold.2.1 hfil
      rw [aeraseFold_ne _ _ d h1.2]
      exact h1.1
  · intro o rem stt dn hmm hst
    exact hfold.2.2 o rem stt dn hmm hst
  · intro y hy
    exact syncDateFold_ship_mono_k today data.pre_shipping_orders (data, [], 0) d y hy

theorem auto_sync_done_effect_witness :
    alookup (auto_sync_pre_to_shipping ⟨2024, 6, 1⟩
        ⟨[("2024-01-01", [OrderRec.mk "A" "" (some "done") none,
            OrderRec.mk "B" "" (some "paused") none])],
         []⟩).1.pre_shipping_orders "2024-01-01"
      = some [OrderRec.mk "B" "" (some "paused") none] ∧
    ∃ y ∈ (alookup (auto_sync_pre_to_shipping ⟨2024, 6, 1⟩
        ⟨[("2024-01-01", [OrderRec.mk "A" "" (some "done") none,
            OrderRec.mk "B" "" (some "paused") none])],
         []⟩).1.shipping_orders "2024-01-01").getD [],
      orderNum y = "A" := by
  have h := auto_sync_done_effect ⟨2024, 6, 1⟩
      ⟨[("2024-01-01", [OrderRec.mk "A" "" (some "done") none,
          OrderRec.mk "B" "" (some "paused") none])], []⟩
      "2024-01-01"
      [OrderRec.mk "A" "" (some "done") none, OrderRec.mk "B" "" (some "paused") none]
      ⟨2024, 1, 1⟩ (by decide) (by decide) (by decide) (by decide)
  constructor
  · rw [h.1]
    decide
  · exact h.2.1 "A" "" (some "done") none (by decide) (by decide)

/-- C2 counterexample to the claim as stated: a done pre-shipping order
dated before today whose order number already exists in shipping_orders
for that date is removed from pre_shipping_orders but is not copied:
shipping_orders is returned entirely unchanged. -/
theorem auto_sync_copy_counterexample :
    (auto_sync_pre_to_shipping ⟨2024, 6, 1⟩
        ⟨[("2024-01-01", [OrderRec.mk "A" "" (some "done") none])],
         [("2024-01-01", [OrderRec.oldStr "A"])]⟩).1.shipping_orders
      = [("2024-01-01", [OrderRec.oldStr "A"])] ∧
    alookup (auto_sync_pre_to_shipping ⟨2024, 6, 1⟩
        ⟨[("2024-01-01", [OrderRec.mk "A" "" (some "done") none])],
         [("2024-01-01", [OrderRec.oldStr "A"])]⟩).1.pre_shipping_orders
        "2024-01-01"
      = none := by decide
